import Mathlib

/-
Shallow embedding of the advanced-vector repository (src/advanced-vector/vector.h):
a RawMemory<T> buffer owner and a Vector<T> dynamic array.  The live elements
data_[0, size_) of a Vector are modelled as a Lean list `elems`, and the buffer
capacity data_.Capacity() as `cap`; machine pointers are abstracted to indices,
and a pointer's nullness where it matters.  Operations that have undefined
behaviour on some inputs (invalid iterator ranges, popping an empty vector)
return Option, with `none` for the undefined case.  Fallible paths (allocation
failure, throwing element constructors/copies) are modelled by `...E` variants
taking an explicit failure oracle and returning Except, where `error s` carries
the observable state of the target object at the moment the exception escapes.
-/

set_option autoImplicit false

universe u

variable {α : Type u}

/-- Model of RawMemory<T> (vector.h 10-91).  The buffer pointer is abstracted to
its nullness: `bufNull = true` models `buffer_ == nullptr`.  `Allocate n`
(vector.h 79-81) returns a null pointer exactly when `n = 0`. -/
structure RawMemory where
  bufNull : Bool
  capacity_ : Nat
deriving DecidableEq, Repr

/-- Default constructor of RawMemory (vector.h 13): null buffer, capacity 0. -/
def RawMemory.default0 : RawMemory := ⟨true, 0⟩

/-- Allocating constructor RawMemory(size_t capacity) (vector.h 15-18):
buffer_ = Allocate(capacity), which is null iff capacity = 0. -/
def RawMemory.alloc (capacity : Nat) : RawMemory := ⟨decide (capacity = 0), capacity⟩

/-- Move constructor RawMemory(RawMemory&&) (vector.h 22-26): takes the source's
buffer and capacity, the source ends with null buffer and capacity 0.
Returns (constructed object, moved-from source). -/
def RawMemory.moveCtor (other : RawMemory) : RawMemory × RawMemory :=
  (⟨other.bufNull, other.capacity_⟩, ⟨true, 0⟩)

/-- RawMemory::Swap (vector.h 60-63): exchanges buffer and capacity. -/
def RawMemory.SwapR (a b : RawMemory) : RawMemory × RawMemory := (b, a)

/-- Move assignment operator=(RawMemory&&) (vector.h 28-35): swaps with rhs
unless this == &rhs.  Returns (new lhs, new rhs). -/
def RawMemory.moveAssign (t r : RawMemory) (selfAssign : Bool) : RawMemory × RawMemory :=
  if selfAssign then (t, r) else (r, t)

/-- Model of Vector<T> (vector.h 93-363): `elems` lists the live elements
data_[0, size_), so Size() = elems.length; `cap` is data_.Capacity(). -/
structure Vector (α : Type u) where
  elems : List α
  cap : Nat
deriving DecidableEq, Repr

/-- Vector::Size (vector.h 210-212). -/
def Vector.Size (v : Vector α) : Nat := v.elems.length

/-- Vector::Capacity (vector.h 214-216). -/
def Vector.Capacity (v : Vector α) : Nat := v.cap

/-- Vector::operator[] (vector.h 298-301): asserts index < size_; out of range
is undefined behaviour, modelled as none. -/
def Vector.getIdx (v : Vector α) (i : Nat) : Option α := v.elems[i]?

/-- Contract model of std::move_backward(first, last, d_last) over a buffer of
slots, with first/last/d_last as indices f, l, d: move-assigns the range [f, l)
into the range of the same length ending at d, starting from the back.  The
standard defines the behaviour only for a valid range (f ≤ l, within the
buffer) whose destination also lies within the buffer; any other call --- in
particular first > last, as reached by Vector::Emplace at pos == end() --- is
undefined behaviour, modelled as none. -/
def moveBackward (buf : List α) (f l d : Nat) : Option (List α) :=
  if f ≤ l ∧ l ≤ buf.length ∧ l - f ≤ d ∧ d ≤ buf.length then
    some (buf.take (d - (l - f)) ++ (buf.drop f).take (l - f) ++ buf.drop d)
  else none

/-- Contract model of std::move(first, last, d_first) over a buffer of slots:
move-assigns [f, l) into the range of the same length starting at d.  Defined
only for a valid source range whose destination fits in the buffer; otherwise
undefined behaviour, modelled as none. -/
def moveFwd (buf : List α) (f l d : Nat) : Option (List α) :=
  if f ≤ l ∧ l ≤ buf.length ∧ d + (l - f) ≤ buf.length then
    some (buf.take d ++ (buf.drop f).take (l - f) ++ buf.drop (d + (l - f)))
  else none

/-- Sized constructor Vector(size_t size) (vector.h 101-104): data_(size),
size_(size), then uninitialized_value_construct_n; every element is
value-initialized, modelled by the default value `dflt`. -/
def Vector.mkSized (n : Nat) (dflt : α) : Vector α := ⟨List.replicate n dflt, n⟩

/-- Copy constructor Vector(const Vector&) (vector.h 106-109): allocates
capacity other.size_, copy-constructs the elements. -/
def Vector.copyCtor (other : Vector α) : Vector α := ⟨other.elems, other.elems.length⟩

/-- Move constructor Vector(Vector&&) (vector.h 111-114): steals data_ (the
moved-from RawMemory is null/0) and size_, zeroing other.size_.  Returns
(constructed object, moved-from source). -/
def Vector.moveCtor (other : Vector α) : Vector α × Vector α :=
  (⟨other.elems, other.cap⟩, ⟨[], 0⟩)

/-- Vector::Swap (vector.h 192-196): swaps data_ and size_. -/
def Vector.SwapV (a b : Vector α) : Vector α × Vector α := (b, a)

/-- Move assignment operator=(Vector&&) (vector.h 135-141): for distinct
objects it performs Swap(rhs), so this receives rhs's state and rhs receives
this's old state.  Returns (new lhs, new rhs). -/
def Vector.moveAssign (t r : Vector α) : Vector α × Vector α := (r, t)

/-- Vector::OpAssignRhsSizeLessCap (vector.h 348-359), the in-place branch of
copy assignment: std::copy copy-assigns rhs's first min(rhs.size_, size_)
elements over the prefix; a shrinking tail is destroyed (destroy_n); a growing
tail is copy-constructed (uninitialized_copy_n).  Returns the resulting live
element list (the caller then sets size_ = rhs.size_). -/
def Vector.OpAssignRhsSizeLessCap (t r : Vector α) : List α :=
  let m := min r.elems.length t.elems.length
  let copied := r.elems.take m ++ t.elems.drop m
  if r.elems.length < t.elems.length then
    copied.take r.elems.length
  else if t.elems.length < r.elems.length then
    copied ++ r.elems.drop t.elems.length
  else
    copied

/-- Copy assignment operator=(const Vector&) (vector.h 116-133).  When
rhs.size_ > Capacity(): build a full copy (Vector to_copy(rhs)) and Swap it in;
otherwise update in place via OpAssignRhsSizeLessCap, keeping the buffer.
Finally size_ = rhs.size_.  The this == &rhs early return needs no separate
model: on any state with size ≤ capacity the in-place branch is the identity,
proved below. -/
def Vector.copyAssign (t r : Vector α) : Vector α :=
  if t.cap < r.elems.length then
    ⟨r.elems, r.elems.length⟩
  else
    ⟨Vector.OpAssignRhsSizeLessCap t r, t.cap⟩

/-- Vector::Reserve (vector.h 202-208): if new_capacity > Capacity(), allocate
a buffer of exactly new_capacity, relocate the elements (CopySwap), else no-op. -/
def Vector.Reserve (v : Vector α) (n : Nat) : Vector α :=
  if v.cap < n then ⟨v.elems, n⟩ else v

/-- Vector::Resize (vector.h 143-159): equal size is a no-op; shrinking
destroys the tail; growing Reserves then value-constructs the new tail. -/
def Vector.Resize (v : Vector α) (n : Nat) (dflt : α) : Vector α :=
  if v.elems.length = n then v
  else if n < v.elems.length then ⟨v.elems.take n, v.cap⟩
  else
    let r := v.Reserve n
    ⟨r.elems ++ List.replicate (n - r.elems.length) dflt, r.cap⟩

/-- Vector::PushBack / EmplaceBack via PushBackU (vector.h 161-185, 304-319):
if size_ != Capacity(), construct the new element in place at slot size_;
otherwise allocate a new buffer of capacity (size_ == 0 ? 1 : size_ * 2),
construct the new element there at slot size_, relocate the old elements
(CopySwap), and swap buffers.  Either way size_ increments. -/
def Vector.PushBack (v : Vector α) (x : α) : Vector α :=
  if v.elems.length ≠ v.cap then
    ⟨v.elems ++ [x], v.cap⟩
  else
    ⟨v.elems ++ [x], if v.elems.length = 0 then 1 else v.elems.length * 2⟩

/-- Vector::PopBack (vector.h 187-191): destroys the last element and
decrements size_.  Precondition size_ > 0; on an empty vector destroy_n at
data_ + size_ - 1 is undefined behaviour, modelled as none. -/
def Vector.PopBack (v : Vector α) : Option (Vector α) :=
  if v.elems.length = 0 then none else some ⟨v.elems.dropLast, v.cap⟩

/-- Vector::Emplace (vector.h 244-275) at position index p (assert p ≤ size_).
In-place branch (size_ < Capacity() and size_ != 0): construct a temporary
aside, CopyOrMove the last element into slot size_, std::move_backward the
range [p, size_-1) one slot right ending at size_, move-assign the temporary
into slot p, destroy the temporary.  Note move_backward receives
first = p, last = size_-1: at p = size_ this is an invalid range (first >
last), undefined behaviour, hence none.  Reallocating branch (capacity full or
empty): allocate capacity (size_ == 0 ? 1 : size_ * 2), construct the new
element at offset p of the new buffer, CopyOrMove the prefix [0, p) then the
suffix [p, size_) around it, destroy the old elements, swap buffers.  Returns
(updated vector, index of the returned iterator). -/
def Vector.Emplace (v : Vector α) (p : Nat) (x : α) : Option (Vector α × Nat) :=
  if p ≤ v.elems.length then
    if v.elems.length < v.cap ∧ v.elems.length ≠ 0 then
      match v.elems.getLast? with
      | none => none
      | some last =>
        match moveBackward (v.elems ++ [last]) p (v.elems.length - 1) v.elems.length with
        | none => none
        | some buf => some (⟨buf.set p x, v.cap⟩, p)
    else
      some (⟨v.elems.take p ++ x :: v.elems.drop p,
             if v.elems.length = 0 then 1 else v.elems.length * 2⟩, p)
  else none

/-- Vector::Insert (vector.h 286-293): delegates to Emplace with the value. -/
def Vector.Insert (v : Vector α) (p : Nat) (x : α) : Option (Vector α × Nat) :=
  Vector.Emplace v p x

/-- Vector::Erase (vector.h 277-285) at position index p (assert p < size_,
end() itself invalid): std::move shifts [p+1, size_) one slot left onto p,
destroy_n removes the vacated last slot, size_ decrements.  Returns (updated
vector, index of the returned iterator). -/
def Vector.Erase (v : Vector α) (p : Nat) : Option (Vector α × Nat) :=
  if p < v.elems.length then
    match moveFwd v.elems (p + 1) v.elems.length p with
    | none => none
    | some buf => some (⟨buf.take (v.elems.length - 1), v.cap⟩, p)
  else none

/-- Failure-oracle model of Vector::CopyOrMove (vector.h 321-329): relocates
`src` into fresh storage.  The static choice is: move when the move constructor
is noexcept or no copy constructor exists (the move path cannot throw), else
copy.  `usesCopy` records that choice; `failAt = some i` with `i < src.length`
means the i-th element copy throws; std::uninitialized_copy_n /
uninitialized_move_n destroy whatever they constructed before rethrowing, so an
error leaves nothing alive in the destination. -/
def CopyOrMoveE (src : List α) (usesCopy : Bool) (failAt : Option Nat) :
    Except Unit (List α) :=
  if usesCopy then
    match failAt with
    | some i => if i < src.length then .error () else .ok src
    | none => .ok src
  else .ok src

/-- Failure-oracle model of Vector::Reserve (vector.h 202-208).  `allocOk`
models whether the RawMemory allocation succeeds; the element relocation
(CopySwap, vector.h 331-336) may throw on its copy path.  data_ and size_ are
only touched by the noexcept destroy_n and Swap after relocation completed, so
an escaping exception carries the original state. -/
def Vector.ReserveE (v : Vector α) (n : Nat) (allocOk usesCopy : Bool)
    (failAt : Option Nat) : Except (Vector α) (Vector α) :=
  if v.cap < n then
    if allocOk then
      match CopyOrMoveE v.elems usesCopy failAt with
      | .error _ => .error v
      | .ok moved => .ok ⟨moved, n⟩
    else .error v
  else .ok v

/-- Failure-oracle model of the sized constructor (vector.h 101-104).  On
error no vector object is produced; the error value is the pair (elements
constructed, elements destroyed) during the failed run:
uninitialized_value_construct_n destroys its partial batch before rethrowing,
and the RawMemory member destructor releases the allocation. -/
def Vector.mkSizedE (n : Nat) (dflt : α) (allocOk : Bool) (ctorFailAt : Option Nat) :
    Except (Nat × Nat) (Vector α) :=
  if allocOk then
    match ctorFailAt with
    | some i => if i < n then .error (i, i) else .ok ⟨List.replicate n dflt, n⟩
    | none => .ok ⟨List.replicate n dflt, n⟩
  else .error (0, 0)

/-- Failure-oracle model of the copy constructor (vector.h 106-109), with the
same error convention as mkSizedE: uninitialized_copy_n destroys the i partial
copies before rethrowing. -/
def Vector.copyCtorE (other : Vector α) (allocOk : Bool) (ctorFailAt : Option Nat) :
    Except (Nat × Nat) (Vector α) :=
  if allocOk then
    match ctorFailAt with
    | some i =>
      if i < other.elems.length then .error (i, i)
      else .ok ⟨other.elems, other.elems.length⟩
    | none => .ok ⟨other.elems, other.elems.length⟩
  else .error (0, 0)

/-- Failure-oracle model of copy assignment (vector.h 116-133).  The
reallocating branch (rhs.size_ > Capacity()) builds Vector to_copy(rhs) ---
any failure inside that copy escapes before this is touched --- then the
noexcept Swap commits.  The in-place branch is the documented weak-guarantee
path; its own element failures are outside this oracle, which models the
strong-guarantee claims. -/
def Vector.copyAssignE (t r : Vector α) (allocOk : Bool) (ctorFailAt : Option Nat) :
    Except (Vector α) (Vector α) :=
  if t.cap < r.elems.length then
    match Vector.copyCtorE r allocOk ctorFailAt with
    | .error _ => .error t
    | .ok toCopy => .ok ⟨toCopy.elems, toCopy.cap⟩
  else .ok (Vector.copyAssign t r)

/-- Failure-oracle model of Vector::Emplace (vector.h 244-275).  In-place
branch: the aside temporary's constructor may throw (`ctorOk = false`, line
253) and the CopyOrMove of the last element may throw on its copy path; both
happen before any mutation of the array.  Reallocating branch: the allocation
(`allocOk`), the new element's constructor at its target offset (`ctorOk`),
and the two CopyOrMove relocations (prefix oracle `failPre`, suffix oracle
`failSuf`) may throw; data_ and size_ are only touched by the noexcept
destroy_n and Swap afterwards.  Failures of move assignments during the
in-place shifting are outside this oracle (the modelled failure sources are
allocation and element constructors/copies).  `ok none` is the undefined
behaviour of the in-place branch at p = size_ (see Vector.Emplace). -/
def Vector.EmplaceE (v : Vector α) (p : Nat) (x : α)
    (allocOk ctorOk usesCopy : Bool) (failPre failSuf : Option Nat) :
    Except (Vector α) (Option (Vector α × Nat)) :=
  if p ≤ v.elems.length then
    if v.elems.length < v.cap ∧ v.elems.length ≠ 0 then
      if ctorOk then
        match v.elems.getLast? with
        | none => .ok none
        | some last =>
          match CopyOrMoveE [last] usesCopy failPre with
          | .error _ => .error v
          | .ok _ =>
            match moveBackward (v.elems ++ [last]) p (v.elems.length - 1) v.elems.length with
            | none => .ok none
            | some buf => .ok (some (⟨buf.set p x, v.cap⟩, p))
      else .error v
    else
      if allocOk then
        if ctorOk then
          match CopyOrMoveE (v.elems.take p) usesCopy failPre with
          | .error _ => .error v
          | .ok _ =>
            match CopyOrMoveE (v.elems.drop p) usesCopy failSuf with
            | .error _ => .error v
            | .ok _ =>
              .ok (some (⟨v.elems.take p ++ x :: v.elems.drop p,
                          if v.elems.length = 0 then 1 else v.elems.length * 2⟩, p))
        else .error v
      else .error v
  else .ok none

/-- Heap ledger for the non-reallocating branch of Vector::Emplace (vector.h
251-258).  `newCalls` counts operator-new allocations on the branch: exactly
one, from `T* tmp = new T(std::forward<Args>(args)...)` (line 253).
`deleteCalls` counts deallocations of that storage: `std::destroy_n(tmp, 1)`
(line 257) invokes only the destructor, and no delete of tmp appears anywhere
in the function, so it stays 0.  Returns (updated vector, returned position,
newCalls, deleteCalls). -/
def Vector.EmplaceInPlaceLedger (v : Vector α) (p : Nat) (x : α) :
    Option (Vector α × Nat × Nat × Nat) :=
  if p ≤ v.elems.length ∧ v.elems.length < v.cap ∧ v.elems.length ≠ 0 then
    let newCalls := 1
    match v.elems.getLast? with
    | none => none
    | some last =>
      match moveBackward (v.elems ++ [last]) p (v.elems.length - 1) v.elems.length with
      | none => none
      | some buf =>
        let deleteCalls := 0
        some (⟨buf.set p x, v.cap⟩, p, newCalls, deleteCalls)
  else none

/-- State invariant of RawMemory (spec 3: address non-null iff capacity > 0). -/
abbrev RInv (r : RawMemory) : Prop := r.bufNull = true ↔ r.capacity_ = 0

/-- State invariant of Vector (spec 3: 0 ≤ size ≤ capacity). -/
abbrev VInv (v : Vector α) : Prop := v.elems.length ≤ v.cap

theorem OpAssign_eq_rhs (t r : Vector α) :
    Vector.OpAssignRhsSizeLessCap t r = r.elems := by
  simp only [Vector.OpAssignRhsSizeLessCap]
  rcases Nat.lt_trichotomy r.elems.length t.elems.length with h | h | h
  · rw [if_pos h, Nat.min_eq_left (Nat.le_of_lt h),
        List.take_left' (by rw [List.length_take]; omega), List.take_length]
  · rw [if_neg (by omega), if_neg (by omega), Nat.min_eq_left (Nat.le_of_eq h),
        List.take_length, h, List.drop_length, List.append_nil]
  · rw [if_neg (by omega), if_pos h, Nat.min_eq_right (Nat.le_of_lt h),
        List.drop_length, List.append_nil, List.take_append_drop]

theorem PushBack_elems (v : Vector α) (x : α) :
    (v.PushBack x).elems = v.elems ++ [x] := by
  unfold Vector.PushBack
  split <;> rfl

theorem cap_le_PushBack (v : Vector α) (x : α) : v.cap ≤ (v.PushBack x).cap := by
  unfold Vector.PushBack
  by_cases h : v.elems.length ≠ v.cap
  · rw [if_pos h]
  · rw [if_neg h]
    push_neg at h
    by_cases h0 : v.elems.length = 0
    · rw [if_pos h0]
      show v.cap ≤ 1
      omega
    · rw [if_neg h0]
      show v.cap ≤ v.elems.length * 2
      omega

theorem moveBackward_length (buf : List α) (f l d : Nat) (out : List α)
    (h : moveBackward buf f l d = some out) : out.length = buf.length := by
  unfold moveBackward at h
  by_cases hc : f ≤ l ∧ l ≤ buf.length ∧ l - f ≤ d ∧ d ≤ buf.length
  · rw [if_pos hc] at h
    obtain rfl := Option.some.inj h
    simp only [List.length_append, List.length_take, List.length_drop]
    omega
  · rw [if_neg hc] at h
    cases h

theorem moveFwd_erase (l : List α) (p : Nat) (h : p < l.length) :
    moveFwd l (p + 1) l.length p =
      some (l.take p ++ l.drop (p + 1) ++ l.drop (l.length - 1)) := by
  unfold moveFwd
  rw [if_pos (by omega)]
  have h1 : (l.drop (p + 1)).take (l.length - (p + 1)) = l.drop (p + 1) :=
    List.take_of_length_le (by rw [List.length_drop])
  have h2 : p + (l.length - (p + 1)) = l.length - 1 := by omega
  rw [h1, h2]

theorem Erase_eq (v : Vector α) (p : Nat) (h : p < v.elems.length) :
    Vector.Erase v p = some (⟨v.elems.take p ++ v.elems.drop (p + 1), v.cap⟩, p) := by
  unfold Vector.Erase
  rw [if_pos h, moveFwd_erase v.elems p h]
  dsimp only
  have hlen : (v.elems.take p ++ v.elems.drop (p + 1)).length = v.elems.length - 1 := by
    rw [List.length_append, List.length_take, List.length_drop]
    omega
  rw [List.take_left' hlen]

/-- Repeated tail insertion from a default-constructed vector: pushSeq f k is
the result of k PushBack calls with values f 0, ..., f (k-1). -/
def pushSeq (f : Nat → α) : Nat → Vector α
  | 0 => ⟨[], 0⟩
  | k + 1 => (pushSeq f k).PushBack (f k)

theorem pushSeq_length (f : Nat → α) (k : Nat) : (pushSeq f k).elems.length = k := by
  induction k with
  | zero => rfl
  | succ k ih => simp [pushSeq, PushBack_elems, ih]

theorem pushSeq_cap_inv (f : Nat → α) (k : Nat) (hk : 1 ≤ k) :
    k ≤ (pushSeq f k).cap ∧ (pushSeq f k).cap < 2 * k ∧
      ∃ i, (pushSeq f k).cap = 2 ^ i := by
  induction k with
  | zero => omega
  | succ k ih =>
    by_cases hk0 : k = 0
    · subst hk0
      refine ⟨?_, ?_, 0, ?_⟩ <;> simp [pushSeq, Vector.PushBack]
    · obtain ⟨h1, h2, i, h3⟩ := ih (by omega)
      have hlen := pushSeq_length f k
      have hstep : pushSeq f (k + 1) = (pushSeq f k).PushBack (f k) := rfl
      rw [hstep]
      by_cases he : (pushSeq f k).elems.length ≠ (pushSeq f k).cap
      · have hcap : ((pushSeq f k).PushBack (f k)).cap = (pushSeq f k).cap := by
          unfold Vector.PushBack
          rw [if_pos he]
        rw [hcap]
        exact ⟨by omega, by omega, i, h3⟩
      · push_neg at he
        have hcap : ((pushSeq f k).PushBack (f k)).cap =
            (pushSeq f k).elems.length * 2 := by
          unfold Vector.PushBack
          rw [if_neg (by omega), if_neg (by omega)]
        rw [hcap]
        refine ⟨by omega, by omega, i + 1, ?_⟩
        rw [pow_succ, ← h3]
        omega

theorem pushSeq_cap_mono (f : Nat → α) (m n : Nat) (h : m ≤ n) :
    (pushSeq f m).cap ≤ (pushSeq f n).cap := by
  induction n with
  | zero =>
    have : m = 0 := by omega
    subst this
    exact Nat.le_refl _
  | succ n ih =>
    rcases Nat.lt_or_ge m (n + 1) with h' | h'
    · exact Nat.le_trans (ih (by omega)) (cap_le_PushBack _ _)
    · have : m = n + 1 := by omega
      subst this
      exact Nat.le_refl _

theorem pow2_least (c k : Nat) (hpow : ∃ i, c = 2 ^ i) (hlt : c < 2 * k) :
    ∀ j, k ≤ 2 ^ j → c ≤ 2 ^ j := by
  obtain ⟨i, rfl⟩ := hpow
  intro j hj
  by_contra hcon
  push_neg at hcon
  have hji : j < i := (Nat.pow_lt_pow_iff_right (by omega)).mp hcon
  have hle : 2 ^ (j + 1) ≤ 2 ^ i := Nat.pow_le_pow_right (by omega) (by omega)
  rw [pow_succ] at hle
  omega

theorem Emplace_VInv (v : Vector α) (p : Nat) (x : α) (w : Vector α) (q : Nat)
    (h : Vector.Emplace v p x = some (w, q)) (_hv : VInv v) : VInv w := by
  unfold Vector.Emplace at h
  split at h
  · split at h
    · split at h
      · cases h
      · split at h
        · cases h
        · next hc _ _ buf hmb =>
          injection h with h
          injection h with hw hq
          subst hw
          have hl := moveBackward_length _ _ _ _ _ hmb
          show (buf.set p x).length ≤ v.cap
          rw [List.length_set, hl, List.length_append]
          simp only [List.length_cons, List.length_nil]
          omega
    · next hp hc =>
      injection h with h
      injection h with hw hq
      subst hw
      show (v.elems.take p ++ x :: v.elems.drop p).length ≤
        if v.elems.length = 0 then 1 else v.elems.length * 2
      rw [List.length_append, List.length_take, List.length_cons, List.length_drop]
      by_cases h0 : v.elems.length = 0
      · rw [if_pos h0]
        omega
      · rw [if_neg h0]
        omega
  · cases h

/-- C1 (failing case): the claimed insert-then-erase round trip breaks at
p = Size() on a non-empty vector with spare capacity.  That input takes the
non-reallocating Emplace branch, which calls std::move_backward(pos,
data_ + size_ - 1, data_ + size_) with first = pos beyond last: an invalid
range, undefined behaviour under the standard's contract.  Concretely: one
live element, capacity 2, Emplace at position 1 = Size(). -/
theorem c1_emplace_at_end_is_ub :
    Vector.Emplace (Vector.mk ([0] : List Nat) 2) 1 7 = none := by decide

/-- C2: strong-guarantee operations.  Whenever Reserve, copy assignment, or
Emplace fail because the allocation or an element constructor/copy throws, the
escaping exception leaves the target in exactly its original state; a failing
sized or copy construction produces no vector and destroys exactly the
elements it had constructed. -/
theorem c2_strong_guarantee {α : Type u} :
    (∀ (v : Vector α) n allocOk usesCopy failAt s,
        Vector.ReserveE v n allocOk usesCopy failAt = .error s → s = v) ∧
    (∀ (t r : Vector α) allocOk ctorFailAt s,
        Vector.copyAssignE t r allocOk ctorFailAt = .error s → s = t) ∧
    (∀ (v : Vector α) p x allocOk ctorOk usesCopy failPre failSuf s,
        Vector.EmplaceE v p x allocOk ctorOk usesCopy failPre failSuf = .error s →
          s = v) ∧
    (∀ n (dflt : α) allocOk ctorFailAt c d,
        Vector.mkSizedE n dflt allocOk ctorFailAt = .error (c, d) → c = d) ∧
    (∀ (r : Vector α) allocOk ctorFailAt c d,
        Vector.copyCtorE r allocOk ctorFailAt = .error (c, d) → c = d) := by
  refine ⟨?_, ?_, ?_, ?_, ?_⟩
  · intro v n allocOk usesCopy failAt s h
    unfold Vector.ReserveE at h
    split at h
    · split at h
      · split at h
        · injection h with h
          exact h.symm
        · cases h
      · injection h with h
        exact h.symm
    · cases h
  · intro t r allocOk ctorFailAt s h
    unfold Vector.copyAssignE at h
    split at h
    · split at h
      · injection h with h
        exact h.symm
      · cases h
    · cases h
  · intro v p x allocOk ctorOk usesCopy failPre failSuf s h
    unfold Vector.EmplaceE at h
    split at h
    · split at h
      · split at h
        · split at h
          · cases h
          · split at h
            · injection h with h
              exact h.symm
            · split at h
              · cases h
              · cases h
        · injection h with h
          exact h.symm
      · split at h
        · split at h
          · split at h
            · injection h with h
              exact h.symm
            · split at h
              · injection h with h
                exact h.symm
              · cases h
          · injection h with h
            exact h.symm
        · injection h with h
          exact h.symm
    · cases h
  · intro n dflt allocOk ctorFailAt c d h
    unfold Vector.mkSizedE at h
    split at h
    · split at h
      · split at h
        · injection h with h
          injection h with h1 h2
          omega
        · cases h
      · cases h
    · injection h with h
      injection h with h1 h2
      omega
  · intro r allocOk ctorFailAt c d h
    unfold Vector.copyCtorE at h
    split at h
    · split at h
      · split at h
        · injection h with h
          injection h with h1 h2
          omega
        · cases h
      · cases h
    · injection h with h
      injection h with h1 h2
      omega

/-- C2 witness: concrete failing runs.  Reserve(5) on [3] (capacity 1) with a
failing allocation leaves the vector as it was; a reallocating Emplace whose
element constructor throws leaves the vector as it was. -/
theorem c2_strong_guarantee_witness :
    Vector.mk ([3] : List Nat) 1 = Vector.mk [3] 1 ∧
      Vector.mk ([1, 2] : List Nat) 2 = Vector.mk [1, 2] 2 :=
  ⟨c2_strong_guarantee.1 (Vector.mk [3] 1) 5 false true none (Vector.mk [3] 1) rfl,
   c2_strong_guarantee.2.2.1 (Vector.mk [1, 2] 2) 1 9 true false true none none
      (Vector.mk [1, 2] 2) rfl⟩

/-- C3: starting from a default-constructed vector, along k consecutive
PushBack/EmplaceBack calls the capacity never decreases, and after the k-th
append (k ≥ 1) it is a power of two, at least k, and no larger than any power
of two that is at least k --- that is, the smallest power of two ≥ k. -/
theorem c3_pushback_capacity (f : Nat → α) (k : Nat) (hk : 1 ≤ k) :
    (∃ i, (pushSeq f k).Capacity = 2 ^ i) ∧
    k ≤ (pushSeq f k).Capacity ∧
    (∀ j, k ≤ 2 ^ j → (pushSeq f k).Capacity ≤ 2 ^ j) ∧
    (∀ m n, m ≤ n → n ≤ k → (pushSeq f m).Capacity ≤ (pushSeq f n).Capacity) := by
  obtain ⟨h1, h2, hpow⟩ := pushSeq_cap_inv f k hk
  exact ⟨hpow, h1, pow2_least _ k hpow h2,
    fun m n hmn _ => pushSeq_cap_mono f m n hmn⟩

/-- C3 witness: after 5 appends the capacity is at least 5, at most 2^3 = 8
(the smallest power of two ≥ 5), and has not decreased since the 3rd append. -/
theorem c3_pushback_capacity_witness :
    5 ≤ (pushSeq (fun i => i) 5).Capacity ∧
      (pushSeq (fun i => i) 5).Capacity ≤ 2 ^ 3 ∧
      (pushSeq (fun i => i) 3).Capacity ≤ (pushSeq (fun i => i) 5).Capacity :=
  ⟨(c3_pushback_capacity (fun i => i) 5 (by decide)).2.1,
   (c3_pushback_capacity (fun i => i) 5 (by decide)).2.2.1 3 (by decide),
   (c3_pushback_capacity (fun i => i) 5 (by decide)).2.2.2 3 5 (by decide) (by decide)⟩

/-- C4 counterexample: move assignment is implemented as Swap, so after
B = move(A) with B = [2, 3] (capacity 2) and A = [1] (capacity 1), A holds
B's old state: Size() = 2 and Capacity() = 2, not 0 and 0 as claimed. -/
theorem c4_move_assign_counterexample :
    ¬ ((Vector.moveAssign (Vector.mk ([2, 3] : List Nat) 2)
          (Vector.mk [1] 1)).2.Size = 0 ∧
       (Vector.moveAssign (Vector.mk ([2, 3] : List Nat) 2)
          (Vector.mk [1] 1)).2.Capacity = 0) := by decide

/-- C4 amended: move construction transfers A's size, capacity and elements to
B and leaves A with Size() = 0 and Capacity() = 0; move assignment instead
swaps the two states, so B receives A's pre-move state while A receives B's
pre-move state (A ends empty only when B was).  Neither operation can fail
(both are total here, noexcept in the source). -/
theorem c4_move_semantics (A B : Vector α) :
    (Vector.moveCtor A).1 = A ∧
    (Vector.moveCtor A).2.Size = 0 ∧ (Vector.moveCtor A).2.Capacity = 0 ∧
    (Vector.moveAssign B A).1 = A ∧ (Vector.moveAssign B A).2 = B :=
  ⟨rfl, rfl, rfl, rfl, rfl⟩

/-- C5: copy assignment gives the target rhs's elements and size (rhs itself,
taken by const reference, is never written); when rhs's size does not exceed
the target's capacity the update is in place and the capacity (buffer) is
unchanged; self-assignment changes nothing. -/
theorem c5_copy_assign (t r : Vector α) :
    (Vector.copyAssign t r).elems = r.elems ∧
    (Vector.copyAssign t r).Size = r.Size ∧
    (r.Size ≤ t.Capacity → (Vector.copyAssign t r).Capacity = t.Capacity) ∧
    (VInv t → Vector.copyAssign t t = t) := by
  have helems : (Vector.copyAssign t r).elems = r.elems := by
    unfold Vector.copyAssign
    by_cases h : t.cap < r.elems.length
    · rw [if_pos h]
    · rw [if_neg h]
      exact OpAssign_eq_rhs t r
  refine ⟨helems, ?_, ?_, ?_⟩
  · show (Vector.copyAssign t r).elems.length = r.elems.length
    rw [helems]
  · intro h
    have h' : r.elems.length ≤ t.cap := h
    unfold Vector.copyAssign
    rw [if_neg (by omega)]
    rfl
  · intro hinv
    have h' : t.elems.length ≤ t.cap := hinv
    unfold Vector.copyAssign
    rw [if_neg (by omega), OpAssign_eq_rhs]

/-- C5 witness: assigning [7, 8] into [1, 2, 3] (capacity 5) keeps capacity 5
(in place), and self-assignment of [1, 2] (capacity 3) is the identity. -/
theorem c5_copy_assign_witness :
    (Vector.copyAssign (Vector.mk ([1, 2, 3] : List Nat) 5)
        (Vector.mk [7, 8] 2)).Capacity = 5 ∧
      Vector.copyAssign (Vector.mk ([1, 2] : List Nat) 3) (Vector.mk [1, 2] 3) =
        Vector.mk [1, 2] 3 :=
  ⟨(c5_copy_assign (Vector.mk [1, 2, 3] 5) (Vector.mk [7, 8] 2)).2.2.1 (by decide),
   (c5_copy_assign (Vector.mk [1, 2] 3) (Vector.mk [1, 2] 3)).2.2.2 (by decide)⟩

/-- C6: erasing at a valid position p yields exactly the original sequence with
the p-th element removed and returns position p; consequently the elements
below p are unchanged, each element above p moves down by one index, the size
drops by one, the capacity is untouched, and when the last element was erased
the returned position equals the new size (end()). -/
theorem c6_erase (v : Vector α) (p : Nat) (h : p < v.elems.length) :
    Vector.Erase v p =
      some (Vector.mk (v.elems.take p ++ v.elems.drop (p + 1)) v.cap, p) ∧
    (Vector.mk (v.elems.take p ++ v.elems.drop (p + 1)) v.cap).Size = v.Size - 1 ∧
    (Vector.mk (v.elems.take p ++ v.elems.drop (p + 1)) v.cap).Capacity =
      v.Capacity ∧
    (∀ i, i < p →
      (Vector.mk (v.elems.take p ++ v.elems.drop (p + 1)) v.cap).getIdx i =
        v.getIdx i) ∧
    (∀ i, p < i → i < v.Size →
      (Vector.mk (v.elems.take p ++ v.elems.drop (p + 1)) v.cap).getIdx (i - 1) =
        v.getIdx i) ∧
    (p + 1 = v.Size →
      p = (Vector.mk (v.elems.take p ++ v.elems.drop (p + 1)) v.cap).Size) := by
  have hsize : (v.elems.take p ++ v.elems.drop (p + 1)).length =
      v.elems.length - 1 := by
    rw [List.length_append, List.length_take, List.length_drop]
    omega
  refine ⟨Erase_eq v p h, hsize, rfl, ?_, ?_, ?_⟩
  · intro i hi
    show (v.elems.take p ++ v.elems.drop (p + 1))[i]? = v.elems[i]?
    rw [List.getElem?_append, if_pos (by rw [List.length_take]; omega),
        List.getElem?_take, if_pos hi]
  · intro i hip hil
    show (v.elems.take p ++ v.elems.drop (p + 1))[i - 1]? = v.elems[i]?
    rw [List.getElem?_append, if_neg (by rw [List.length_take]; omega),
        List.length_take, List.getElem?_drop]
    congr 1
    have hil' : i < v.elems.length := hil
    omega
  · intro hp
    show p = (v.elems.take p ++ v.elems.drop (p + 1)).length
    rw [hsize]
    have hp' : p + 1 = v.elems.length := hp
    omega

/-- C6 witness: erasing position 1 of [1, 2, 3, 4] (capacity 4) yields
([1, 3, 4], position 1), and the element formerly at index 2 is now at index 1. -/
theorem c6_erase_witness :
    Vector.Erase (Vector.mk ([1, 2, 3, 4] : List Nat) 4) 1 =
      some (Vector.mk [1, 3, 4] 4, 1) ∧
    (Vector.mk ([1, 3, 4] : List Nat) 4).getIdx 1 =
      (Vector.mk ([1, 2, 3, 4] : List Nat) 4).getIdx 2 :=
  ⟨(c6_erase (Vector.mk [1, 2, 3, 4] 4) 1 (by decide)).1,
   (c6_erase (Vector.mk [1, 2, 3, 4] 4) 1 (by decide)).2.2.2.2.1 2 (by decide)
     (by decide)⟩

/-- C7: for every n, the sized constructor yields Size() = n, Capacity() = n,
and all n elements hold the default (value-initialized) value. -/
theorem c7_sized_ctor (n : Nat) (dflt : α) :
    (Vector.mkSized n dflt).Size = n ∧ (Vector.mkSized n dflt).Capacity = n ∧
      ∀ i, i < n → (Vector.mkSized n dflt).getIdx i = some dflt := by
  refine ⟨List.length_replicate n dflt, rfl, fun i hi => ?_⟩
  show (List.replicate n dflt)[i]? = some dflt
  rw [List.getElem?_replicate, if_pos hi]

/-- C7 witness: Vector(3) over Nat with default value 0 has size 3 and its
middle element is 0. -/
theorem c7_sized_ctor_witness :
    (Vector.mkSized 3 (0 : Nat)).Size = 3 ∧
      (Vector.mkSized 3 (0 : Nat)).getIdx 1 = some 0 :=
  ⟨(c7_sized_ctor 3 0).1, (c7_sized_ctor 3 0).2.2 1 (by decide)⟩

/-- C9: Emplace on an empty vector, at the only valid position 0, always takes
the reallocating branch (the in-place branch requires size_ != 0) and installs
a fresh buffer of capacity exactly 1, whatever the previous capacity: so
capacity can decrease, e.g. from 5 (after Reserve(5) on an empty vector) to 1. -/
theorem c9_emplace_empty (c : Nat) (x : α) :
    Vector.Emplace (Vector.mk [] c) 0 x = some (Vector.mk [x] 1, 0) ∧
    Vector.Emplace ((Vector.mk ([] : List α) 0).Reserve 5) 0 x =
      some (Vector.mk [x] 1, 0) ∧
    ((Vector.mk ([] : List α) 0).Reserve 5).Capacity = 5 := by
  refine ⟨?_, ?_, rfl⟩ <;> simp [Vector.Emplace, Vector.Reserve]

/-- C10 (failing case): on the non-reallocating Emplace branch the aside
temporary is created with operator new and is only ever passed to
std::destroy_n, which calls the destructor but never deallocates; no delete
appears in the function.  The heap ledger of a successful in-place Emplace
([5, 6], capacity 4, emplace 9 at position 1) records 1 allocation and 0
deallocations: the temporary's storage is leaked. -/
theorem c10_emplace_tmp_leak :
    Vector.EmplaceInPlaceLedger (Vector.mk ([5, 6] : List Nat) 4) 1 9 =
      some (Vector.mk [5, 9, 6] 4, 1, 1, 0) ∧ (1 : Nat) ≠ 0 := by decide

/-- C8: every modelled RawMemory and Vector operation preserves the state
invariants: a RawMemory's buffer address is null iff its capacity is 0, and a
Vector's size never exceeds its capacity (operations with a precondition
preserve it on every defined, i.e. some-returning, run). -/
theorem c8_invariants {α : Type u} :
    (∀ (v : Vector α) x, VInv v → VInv (v.PushBack x)) ∧
    RInv RawMemory.default0 ∧
    (∀ n, RInv (RawMemory.alloc n)) ∧
    (∀ r, RInv r → RInv (RawMemory.moveCtor r).1 ∧ RInv (RawMemory.moveCtor r).2) ∧
    (∀ a b, RInv a → RInv b →
      RInv (RawMemory.SwapR a b).1 ∧ RInv (RawMemory.SwapR a b).2) ∧
    (∀ a b sf, RInv a → RInv b →
      RInv (RawMemory.moveAssign a b sf).1 ∧ RInv (RawMemory.moveAssign a b sf).2) ∧
    (∀ n (d : α), VInv (Vector.mkSized n d)) ∧
    (∀ v : Vector α, VInv (Vector.copyCtor v)) ∧
    (∀ v : Vector α, VInv v →
      VInv (Vector.moveCtor v).1 ∧ VInv (Vector.moveCtor v).2) ∧
    (∀ t r : Vector α, VInv (Vector.copyAssign t r)) ∧
    (∀ t r : Vector α, VInv t → VInv r →
      VInv (Vector.moveAssign t r).1 ∧ VInv (Vector.moveAssign t r).2) ∧
    (∀ (v : Vector α) n, VInv v → VInv (v.Reserve n)) ∧
    (∀ (v : Vector α) n d, VInv v → VInv (v.Resize n d)) ∧
    (∀ (v : Vector α) w, VInv v → v.PopBack = some w → VInv w) ∧
    (∀ (v : Vector α) p x w q, VInv v → v.Emplace p x = some (w, q) → VInv w) ∧
    (∀ (v : Vector α) p w q, VInv v → v.Erase p = some (w, q) → VInv w) ∧
    (∀ a b : Vector α, VInv a → VInv b →
      VInv (Vector.SwapV a b).1 ∧ VInv (Vector.SwapV a b).2) := by
  refine ⟨?_, ?_, ?_, ?_, ?_, ?_, ?_, ?_, ?_, ?_, ?_, ?_, ?_, ?_, ?_, ?_, ?_⟩
  · intro v x hv
    have hv' : v.elems.length ≤ v.cap := hv
    unfold Vector.PushBack
    split
    · next h =>
      show (v.elems ++ [x]).length ≤ v.cap
      rw [List.length_append]
      simp only [List.length_cons, List.length_nil]
      omega
    · next h =>
      show (v.elems ++ [x]).length ≤
        if v.elems.length = 0 then 1 else v.elems.length * 2
      rw [List.length_append]
      simp only [List.length_cons, List.length_nil]
      split <;> omega
  · decide
  · intro n
    show (decide (n = 0) = true) ↔ n = 0
    simp
  · intro r h
    refine ⟨h, ?_⟩
    show RInv (RawMemory.mk true 0)
    decide
  · intro a b ha hb
    exact ⟨hb, ha⟩
  · intro a b sf ha hb
    unfold RawMemory.moveAssign
    cases sf
    · exact ⟨hb, ha⟩
    · exact ⟨ha, hb⟩
  · intro n d
    exact Nat.le_of_eq (List.length_replicate n d)
  · intro v
    exact Nat.le_refl _
  · intro v hv
    exact ⟨hv, Nat.le_refl 0⟩
  · intro t r
    unfold Vector.copyAssign
    split
    · exact Nat.le_refl _
    · next h =>
      show (Vector.OpAssignRhsSizeLessCap t r).length ≤ t.cap
      rw [OpAssign_eq_rhs]
      omega
  · intro t r ht hr
    exact ⟨hr, ht⟩
  · intro v n hv
    have hv' : v.elems.length ≤ v.cap := hv
    unfold Vector.Reserve
    split
    · next h =>
      show v.elems.length ≤ n
      omega
    · exact hv
  · intro v n d hv
    have hv' : v.elems.length ≤ v.cap := hv
    have hre : (v.Reserve n).elems = v.elems := by
      unfold Vector.Reserve
      split <;> rfl
    have hrc : n ≤ (v.Reserve n).cap := by
      unfold Vector.Reserve
      split
      · exact Nat.le_refl n
      · next h =>
        show n ≤ v.cap
        omega
    unfold Vector.Resize
    split
    · exact hv
    · split
      · next h h' =>
        show (v.elems.take n).length ≤ v.cap
        rw [List.length_take]
        omega
      · next h h' =>
        show ((v.Reserve n).elems ++
            List.replicate (n - (v.Reserve n).elems.length) d).length ≤
          (v.Reserve n).cap
        rw [List.length_append, hre, List.length_replicate]
        omega
  · intro v w hv hp
    have hv' : v.elems.length ≤ v.cap := hv
    unfold Vector.PopBack at hp
    split at hp
    · cases hp
    · injection hp with hp
      subst hp
      show v.elems.dropLast.length ≤ v.cap
      rw [List.length_dropLast]
      omega
  · exact fun v p x w q hv h => Emplace_VInv v p x w q h hv
  · intro v p w q hv h
    have hv' : v.elems.length ≤ v.cap := hv
    by_cases hp : p < v.elems.length
    · rw [Erase_eq v p hp] at h
      injection h with h
      injection h with hw hq
      subst hw
      show (v.elems.take p ++ v.elems.drop (p + 1)).length ≤ v.cap
      rw [List.length_append, List.length_take, List.length_drop]
      omega
    · unfold Vector.Erase at h
      rw [if_neg hp] at h
      cases h
  · intro a b ha hb
    exact ⟨hb, ha⟩

/-- C8 witness: pushing into [3] (size 1, capacity 1, the reallocating branch)
preserves size ≤ capacity, and RawMemory(4) satisfies the nullness invariant. -/
theorem c8_invariants_witness :
    VInv ((Vector.mk ([3] : List Nat) 1).PushBack 5) ∧ RInv (RawMemory.alloc 4) :=
  ⟨(@c8_invariants Nat).1 (Vector.mk [3] 1) 5 (by decide),
   (@c8_invariants Nat).2.2.1 4⟩
